import Mathlib

/- Verification of the incremental fetch-and-cache loop of makeNbaDb/testit.py.

   The script enumerates season descriptors, derives a cache filename for each
   ("sched" + type code + year + ".json"), and downloads the schedule for a season
   only when the file is not already present in the cache directory, sleeping one
   second before each download and writing the parsed-then-serialized JSON response
   to the cache path.  The development below embeds that loop as `runSeasons` over an
   explicit filesystem map and an event trace, embeds the JSON round trip as an
   executable serializer/parser pair, and proves the stated properties. -/

set_option autoImplicit false
set_option linter.unusedVariables false

namespace NbaSync

/-- A season descriptor, as drawn from the season listing: testit.py reads
`season["year"]` and `season["type"]["code"]` for each entry. -/
structure Season where
  year : Int
  type : String
  deriving DecidableEq, Repr

mutual
inductive Json where
  | null : Json
  | bool (b : Bool) : Json
  | num (n : Int) : Json
  | str (s : String) : Json
  | arr (xs : JList) : Json
  | obj (ms : JObj) : Json
inductive JList where
  | nil : JList
  | cons (hd : Json) (tl : JList) : JList
inductive JObj where
  | nil : JObj
  | cons (k : String) (v : Json) (tl : JObj) : JObj
end

/-- Decimal digit character for a value below ten. -/
def dchar (n : Nat) : Char := Char.ofNat (48 + n)

def natDigsF : Nat → Nat → List Char
  | 0, _ => []
  | fuel+1, n => if n < 10 then [dchar n] else natDigsF fuel (n / 10) ++ [dchar (n % 10)]

def natDigs (n : Nat) : List Char := natDigsF (n + 1) n

def natStr (n : Nat) : String := ⟨natDigs n⟩

/-- Decimal rendering of an integer, mirroring Python `str(year)`. -/
def intStr (i : Int) : String := if i < 0 then "-" ++ natStr i.natAbs else natStr i.natAbs

def qt : Char := Char.ofNat 34
def bs : Char := Char.ofNat 92
def lbr : Char := Char.ofNat 123
def rbr : Char := Char.ofNat 125

def escChar (c : Char) : List Char := if c = qt ∨ c = bs then [bs, c] else [c]

def escL : List Char → List Char
  | [] => []
  | c :: cs => escChar c ++ escL cs

/- Modelled from the spec: the script serializes with `json.dump` and parses with
   `json.loads`, library code outside this repository; the spec requires only that the
   format "must round-trip without loss".  `dumpVal` and `parseVal` below realize that
   contract as an executable serializer and parser over the `Json` value type above
   (numerics restricted to integers; floating point is out of scope). -/
mutual
def dumpVal : Json → List Char
  | .null => 'n' :: ['u', 'l', 'l']
  | .bool true => 't' :: ['r', 'u', 'e']
  | .bool false => 'f' :: ['a', 'l', 's', 'e']
  | .num n => (if n < 0 then [Char.ofNat 45] else []) ++ natDigs n.natAbs
  | .str s => qt :: (escL s.data ++ [qt])
  | .arr xs => '[' :: (dumpItems xs ++ [']'])
  | .obj ms => lbr :: (dumpMembers ms ++ [rbr])
def dumpItems : JList → List Char
  | .nil => []
  | .cons h .nil => dumpVal h
  | .cons h (.cons h2 t) => dumpVal h ++ (',' :: dumpItems (.cons h2 t))
def dumpMembers : JObj → List Char
  | .nil => []
  | .cons k v .nil => qt :: (escL k.data ++ (qt :: (':' :: dumpVal v)))
  | .cons k v (.cons k2 v2 t) =>
      qt :: (escL k.data ++ (qt :: (':' :: (dumpVal v ++ (',' :: dumpMembers (.cons k2 v2 t))))))
end

def isDigitC (c : Char) : Bool := 48 ≤ c.toNat && c.toNat ≤ 57

def readDigits (a : Nat) : List Char → Nat × List Char
  | [] => (a, [])
  | c :: cs => if isDigitC c then readDigits (10 * a + (c.toNat - 48)) cs else (a, c :: cs)

def unesc (c : Char) : Char :=
  if c = Char.ofNat 110 then Char.ofNat 10
  else if c = 't' then Char.ofNat 9
  else if c = 'r' then Char.ofNat 13
  else c

def readStr : List Char → Option (List Char × List Char)
  | [] => none
  | c :: cs =>
    if c = qt then some ([], cs)
    else if c = bs then
      match cs with
      | [] => none
      | e :: cs' =>
        match readStr cs' with
        | none => none
        | some (s, r) => some (unesc e :: s, r)
    else
      match readStr cs with
      | none => none
      | some (s, r) => some (c :: s, r)

def expectL : List Char → List Char → Option (List Char)
  | [], s => some s
  | _ :: _, [] => none
  | e :: es, c :: cs => if c = e then expectL es cs else none

def listCase {A : Type} (l : List Char) (nilR : Option A)
    (consR : Char → List Char → Option A) : Option A :=
  match l with
  | [] => nilR
  | c :: cs => consR c cs

def mkNull : Option (List Char) → Option (Json × List Char)
  | none => none
  | some r => some (.null, r)

def mkTrue : Option (List Char) → Option (Json × List Char)
  | none => none
  | some r => some (.bool true, r)

def mkFalse : Option (List Char) → Option (Json × List Char)
  | none => none
  | some r => some (.bool false, r)

def mkStr : Option (List Char × List Char) → Option (Json × List Char)
  | none => none
  | some (l, r) => some (.str ⟨l⟩, r)

def mkArr : Option (JList × List Char) → Option (Json × List Char)
  | none => none
  | some (xs, r) => some (.arr xs, r)

def mkObj : Option (JObj × List Char) → Option (Json × List Char)
  | none => none
  | some (ms, r) => some (.obj ms, r)

mutual
def parseVal : Nat → List Char → Option (Json × List Char)
  | 0, _ => none
  | fuel+1, s =>
    listCase s none (fun c cs =>
      if c = Char.ofNat 110 then mkNull (expectL ['u', 'l', 'l'] cs)
      else if c = 't' then mkTrue (expectL ['r', 'u', 'e'] cs)
      else if c = 'f' then mkFalse (expectL ['a', 'l', 's', 'e'] cs)
      else if c = Char.ofNat 45 then
        listCase cs none (fun d ds =>
          if isDigitC d then
            some (.num (-((readDigits (d.toNat - 48) ds).1 : Int)),
              (readDigits (d.toNat - 48) ds).2)
          else none)
      else if isDigitC c then
        some (.num ((readDigits (c.toNat - 48) cs).1 : Int), (readDigits (c.toNat - 48) cs).2)
      else if c = qt then mkStr (readStr cs)
      else if c = '[' then
        listCase cs none (fun d ds =>
          if d = ']' then some (.arr .nil, ds)
          else mkArr (parseItems fuel (d :: ds)))
      else if c = lbr then
        listCase cs none (fun d ds =>
          if d = rbr then some (.obj .nil, ds)
          else mkObj (parseMembers fuel (d :: ds)))
      else none)
def parseItems : Nat → List Char → Option (JList × List Char)
  | 0, _ => none
  | fuel+1, s =>
    (parseVal fuel s).bind (fun jr =>
      listCase jr.2 none (fun d r2 =>
        if d = ']' then some (.cons jr.1 .nil, r2)
        else if d = ',' then
          (parseItems fuel r2).map (fun tr => (.cons jr.1 tr.1, tr.2))
        else none))
def parseMembers : Nat → List Char → Option (JObj × List Char)
  | 0, _ => none
  | fuel+1, s =>
    listCase s none (fun c cs =>
      if c = qt then
        (readStr cs).bind (fun kr =>
          listCase kr.2 none (fun d r2 =>
            if d = ':' then
              (parseVal fuel r2).bind (fun vr =>
                listCase vr.2 none (fun d2 r4 =>
                  if d2 = rbr then some (.cons ⟨kr.1⟩ vr.1 .nil, r4)
                  else if d2 = ',' then
                    (parseMembers fuel r4).map (fun tr => (.cons ⟨kr.1⟩ vr.1 tr.1, tr.2))
                  else none))
            else none))
      else none)
end

/-- Serialization of a structured value to cache-file text (models `json.dump`). -/
def dumpJson (j : Json) : String := ⟨dumpVal j⟩

/-- Parse of a response body or cache-file text (models `json.loads`); `none` models
the `JSONDecodeError` the library raises on malformed input. -/
def parseJson (s : String) : Option Json :=
  match parseVal (s.length + 1) s.data with
  | some (j, []) => some j
  | _ => none

/-- Cache key: `fileName = "sched" + type + str(year) + ".json"` (testit.py line 49). -/
def fileName (s : Season) : String := "sched" ++ s.type ++ intStr s.year ++ ".json"

/-- Path under the cache directory (models `os.path.join(schedDir, fileName)`). -/
def pathJoin (d f : String) : String := d ++ "/" ++ f

inductive NetErr where
  | timeout : NetErr
  | connFail : NetErr
  deriving DecidableEq, Repr

inductive FetchErr where
  | net (e : NetErr) : FetchErr
  | badJson : FetchErr
  deriving DecidableEq, Repr

/-- Network oracle: what the remote host answers (or how the connection fails) for a
given year and season-type code. -/
def Net : Type := Int → String → Except NetErr String

def decodeBody : Option Json → Except FetchErr Json
  | none => .error .badJson
  | some j => .ok j

def jsonOrErr : Except NetErr String → Except FetchErr Json
  | .error e => .error (.net e)
  | .ok body => decodeBody (parseJson body)

/-- Embedding of `getSchedule(year, seasonType, apiKey)` (testit.py lines 37-42): one
HTTPS request for the season schedule, whose body is parsed with `json.loads`; a raised
exception is modelled as `Except.error`. -/
def getSchedule (net : Net) (year : Int) (seasonType : String) : Except FetchErr Json :=
  jsonOrErr (net year seasonType)

/-- Filesystem under the cache directory: an association list from absolute path to
file text; the first binding for a path wins. -/
def Fs : Type := List (String × String)

def fsLookup : Fs → String → Option String
  | [], _ => none
  | (k, v) :: rest, p => if k = p then some v else fsLookup rest p

def fsExists (fs : Fs) (p : String) : Bool := (fsLookup fs p).isSome

def fsWrite (fs : Fs) (p v : String) : Fs := (p, v) :: fs

/-- Observable events of one loop iteration: the progress `print`, the `time.sleep`,
the network request of `getSchedule`, and the cache-file write. -/
inductive Ev where
  | msg (s : String) : Ev
  | sleep (n : Nat) : Ev
  | fetch (year : Int) (type : String) : Ev
  | write (path : String) : Ev
  deriving DecidableEq, Repr

structure RunResult where
  fs : Fs
  trace : List Ev
  err : Option FetchErr

/-- Embedding of the season loop (testit.py lines 46-58): for each season compute the
cache path; if the file exists skip, otherwise print, sleep one second, fetch the
schedule and write it; an exception aborts the run, keeping the filesystem as is. -/
def runSeasons (net : Net) (schedDir : String) : List Season → Fs → List Ev → RunResult
  | [], fs, tr => ⟨fs, tr, none⟩
  | s :: rest, fs, tr =>
    let fn := fileName s
    let outpath := pathJoin schedDir fn
    if fsExists fs outpath then runSeasons net schedDir rest fs tr
    else
      let tr' := tr ++ [.msg ("downloading " ++ fn), .sleep 1, .fetch s.year s.type]
      match getSchedule net s.year s.type with
      | .error e => ⟨fs, tr', some e⟩
      | .ok seas =>
          runSeasons net schedDir rest (fsWrite fs outpath (dumpJson seas)) (tr' ++ [.write outpath])

def numFetches : List Ev → Nat
  | [] => 0
  | .fetch _ _ :: rest => 1 + numFetches rest
  | _ :: rest => numFetches rest

def countFetch (y : Int) (t : String) : List Ev → Nat
  | [] => 0
  | .fetch y' t' :: rest => (if y' = y ∧ t' = t then 1 else 0) + countFetch y t rest
  | _ :: rest => countFetch y t rest

def numWrites : List Ev → Nat
  | [] => 0
  | .write _ :: rest => 1 + numWrites rest
  | _ :: rest => numWrites rest

def throttledFrom : Option Ev → List Ev → Bool
  | _, [] => true
  | prev, e :: rest =>
    (match e with
     | .fetch _ _ => match prev with | some (.sleep 1) => true | _ => false
     | _ => true) && throttledFrom (some e) rest

/-- Holds when every fetch event in the trace is immediately preceded by `sleep 1`. -/
def throttled (tr : List Ev) : Bool := throttledFrom none tr

def noDigitHead : List Char → Bool
  | [] => true
  | c :: _ => !isDigitC c

mutual
def needVal : Json → Nat
  | .null => 1
  | .bool _ => 1
  | .num _ => 1
  | .str _ => 1
  | .arr xs => 1 + needItems xs
  | .obj ms => 1 + needMembers ms
def needItems : JList → Nat
  | .nil => 0
  | .cons h t => 1 + needVal h + needItems t
def needMembers : JObj → Nat
  | .nil => 0
  | .cons _ v t => 1 + needVal v + needMembers t
end

theorem runSeasons_nil (net : Net) (d : String) (fs : Fs) (tr : List Ev) :
    runSeasons net d [] fs tr = ⟨fs, tr, none⟩ := rfl

theorem runSeasons_skip (net : Net) (d : String) (s : Season) (rest : List Season)
    (fs : Fs) (tr : List Ev) (h : fsExists fs (pathJoin d (fileName s)) = true) :
    runSeasons net d (s :: rest) fs tr = runSeasons net d rest fs tr := by
  simp [runSeasons, h]

theorem runSeasons_miss_err (net : Net) (d : String) (s : Season) (rest : List Season)
    (fs : Fs) (tr : List Ev) (e : FetchErr)
    (habs : fsExists fs (pathJoin d (fileName s)) = false)
    (herr : getSchedule net s.year s.type = .error e) :
    runSeasons net d (s :: rest) fs tr =
      ⟨fs, tr ++ [.msg ("downloading " ++ fileName s), .sleep 1, .fetch s.year s.type],
        some e⟩ := by
  simp [runSeasons, habs, herr]

theorem runSeasons_miss_ok (net : Net) (d : String) (s : Season) (rest : List Season)
    (fs : Fs) (tr : List Ev) (j : Json)
    (habs : fsExists fs (pathJoin d (fileName s)) = false)
    (hok : getSchedule net s.year s.type = .ok j) :
    runSeasons net d (s :: rest) fs tr =
      runSeasons net d rest (fsWrite fs (pathJoin d (fileName s)) (dumpJson j))
        (tr ++ [.msg ("downloading " ++ fileName s), .sleep 1, .fetch s.year s.type,
          .write (pathJoin d (fileName s))]) := by
  simp [runSeasons, habs, hok]

theorem runSeasons_all_cached (net : Net) (d : String) (seasons : List Season) (fs : Fs)
    (tr : List Ev) (h : ∀ s ∈ seasons, fsExists fs (pathJoin d (fileName s)) = true) :
    runSeasons net d seasons fs tr = ⟨fs, tr, none⟩ := by
  induction seasons with
  | nil => rfl
  | cons s rest ih =>
      rw [runSeasons_skip net d s rest fs tr (h s (List.mem_cons_self s rest))]
      exact ih (fun x hx => h x (List.mem_cons_of_mem s hx))

theorem runSeasons_append (net : Net) (d : String) : ∀ (pre rest : List Season)
    (fs : Fs) (tr : List Ev) (fs₁ : Fs) (tr₁ : List Ev),
    runSeasons net d pre fs tr = ⟨fs₁, tr₁, none⟩ →
    runSeasons net d (pre ++ rest) fs tr = runSeasons net d rest fs₁ tr₁
  | [], rest, fs, tr, fs₁, tr₁, h => by
      obtain ⟨rfl, rfl⟩ : fs = fs₁ ∧ tr = tr₁ := by
        have h' := h
        rw [runSeasons_nil] at h'
        exact ⟨congrArg RunResult.fs h', congrArg RunResult.trace h'⟩
      rfl
  | s :: pre, rest, fs, tr, fs₁, tr₁, h => by
      by_cases hex : fsExists fs (pathJoin d (fileName s)) = true
      · rw [List.cons_append, runSeasons_skip net d s (pre ++ rest) fs tr hex]
        rw [runSeasons_skip net d s pre fs tr hex] at h
        exact runSeasons_append net d pre rest fs tr fs₁ tr₁ h
      · have habs : fsExists fs (pathJoin d (fileName s)) = false := by
          simpa using hex
        cases hsc : getSchedule net s.year s.type with
        | error e =>
            rw [runSeasons_miss_err net d s pre fs tr e habs hsc] at h
            exact absurd (congrArg RunResult.err h) (by simp)
        | ok j =>
            rw [List.cons_append, runSeasons_miss_ok net d s (pre ++ rest) fs tr j habs hsc]
            rw [runSeasons_miss_ok net d s pre fs tr j habs hsc] at h
            exact runSeasons_append net d pre rest _ _ fs₁ tr₁ h

theorem fsLookup_write (fs : Fs) (p q v : String) :
    fsLookup (fsWrite fs q v) p = if q = p then some v else fsLookup fs p := rfl

theorem fsExists_write_mono (fs : Fs) (p q v : String) (h : fsExists fs p = true) :
    fsExists (fsWrite fs q v) p = true := by
  simp only [fsExists, fsLookup_write]
  split
  · rfl
  · exact h

theorem fsExists_run_mono (net : Net) (d : String) : ∀ (seasons : List Season)
    (fs : Fs) (tr : List Ev) (p : String), fsExists fs p = true →
    fsExists (runSeasons net d seasons fs tr).fs p = true
  | [], fs, tr, p, h => h
  | s :: rest, fs, tr, p, h => by
      by_cases hex : fsExists fs (pathJoin d (fileName s)) = true
      · rw [runSeasons_skip net d s rest fs tr hex]
        exact fsExists_run_mono net d rest fs tr p h
      · have habs : fsExists fs (pathJoin d (fileName s)) = false := by simpa using hex
        cases hsc : getSchedule net s.year s.type with
        | error e => rw [runSeasons_miss_err net d s rest fs tr e habs hsc]; exact h
        | ok j =>
            rw [runSeasons_miss_ok net d s rest fs tr j habs hsc]
            exact fsExists_run_mono net d rest _ _ p (fsExists_write_mono fs p _ _ h)

theorem countFetch_append (y : Int) (t : String) : ∀ (a b : List Ev),
    countFetch y t (a ++ b) = countFetch y t a + countFetch y t b
  | [], b => by simp [countFetch]
  | e :: a, b => by
      cases e <;> simp [countFetch, countFetch_append y t a b, Nat.add_assoc]

theorem season_eta (s : Season) (y : Int) (t : String) (hy : s.year = y) (ht : s.type = t) :
    s = ⟨y, t⟩ := by
  cases s
  simp_all

theorem countFetch_cached (net : Net) (d : String) (y : Int) (t : String) :
    ∀ (seasons : List Season) (fs : Fs) (tr : List Ev),
    fsExists fs (pathJoin d (fileName ⟨y, t⟩)) = true →
    countFetch y t (runSeasons net d seasons fs tr).trace = countFetch y t tr
  | [], fs, tr, h => rfl
  | s :: rest, fs, tr, h => by
      by_cases hex : fsExists fs (pathJoin d (fileName s)) = true
      · rw [runSeasons_skip net d s rest fs tr hex]
        exact countFetch_cached net d y t rest fs tr h
      · have habs : fsExists fs (pathJoin d (fileName s)) = false := by simpa using hex
        have hne : ¬(s.year = y ∧ s.type = t) := by
          rintro ⟨hy, ht⟩
          rw [season_eta s y t hy ht] at habs
          rw [habs] at h
          exact Bool.false_ne_true h
        cases hsc : getSchedule net s.year s.type with
        | error e =>
            rw [runSeasons_miss_err net d s rest fs tr e habs hsc]
            simp [countFetch_append, countFetch, hne]
        | ok j =>
            rw [runSeasons_miss_ok net d s rest fs tr j habs hsc]
            rw [countFetch_cached net d y t rest _ _ (fsExists_write_mono fs _ _ _ h)]
            simp [countFetch_append, countFetch, hne]

theorem countFetch_run_le (net : Net) (d : String) (y : Int) (t : String) :
    ∀ (seasons : List Season) (fs : Fs) (tr : List Ev),
    countFetch y t (runSeasons net d seasons fs tr).trace ≤ countFetch y t tr + 1
  | [], fs, tr => Nat.le_succ _
  | s :: rest, fs, tr => by
      by_cases hex : fsExists fs (pathJoin d (fileName s)) = true
      · rw [runSeasons_skip net d s rest fs tr hex]
        exact countFetch_run_le net d y t rest fs tr
      · have habs : fsExists fs (pathJoin d (fileName s)) = false := by simpa using hex
        by_cases hst : s.year = y ∧ s.type = t
        · obtain ⟨hy, ht⟩ := hst
          have hs : s = ⟨y, t⟩ := season_eta s y t hy ht
          cases hsc : getSchedule net s.year s.type with
          | error e =>
              rw [runSeasons_miss_err net d s rest fs tr e habs hsc]
              simp [countFetch_append, countFetch, hy, ht]
          | ok j =>
              rw [runSeasons_miss_ok net d s rest fs tr j habs hsc]
              have hkey : fsExists (fsWrite fs (pathJoin d (fileName s)) (dumpJson j))
                  (pathJoin d (fileName ⟨y, t⟩)) = true := by
                rw [← hs]
                simp [fsExists, fsLookup_write]
              rw [countFetch_cached net d y t rest _ _ hkey]
              simp [countFetch_append, countFetch, hy, ht]
        · cases hsc : getSchedule net s.year s.type with
          | error e =>
              rw [runSeasons_miss_err net d s rest fs tr e habs hsc]
              simp [countFetch_append, countFetch, hst]
          | ok j =>
              rw [runSeasons_miss_ok net d s rest fs tr j habs hsc]
              have := countFetch_run_le net d y t rest
                (fsWrite fs (pathJoin d (fileName s)) (dumpJson j))
                (tr ++ [.msg ("downloading " ++ fileName s), .sleep 1, .fetch s.year s.type,
                  .write (pathJoin d (fileName s))])
              simpa [countFetch_append, countFetch, hst] using this

theorem throttledFrom_block (m : String) (y : Int) (t : String) (w : List Ev)
    (hw : throttledFrom (some (.fetch y t)) w = true) :
    ∀ (tr : List Ev) (p : Option Ev),
    throttledFrom p (tr ++ .msg m :: .sleep 1 :: .fetch y t :: w) = throttledFrom p tr
  | [], p => by simp [throttledFrom, hw]
  | e :: tr, p => by
      simp only [List.cons_append, throttledFrom, List.append_eq]
      rw [throttledFrom_block m y t w hw tr (some e)]

theorem throttled_run_aux (net : Net) (d : String) : ∀ (seasons : List Season)
    (fs : Fs) (tr : List Ev) (p : Option Ev), throttledFrom p tr = true →
    throttledFrom p (runSeasons net d seasons fs tr).trace = true
  | [], fs, tr, p, h => h
  | s :: rest, fs, tr, p, h => by
      by_cases hex : fsExists fs (pathJoin d (fileName s)) = true
      · rw [runSeasons_skip net d s rest fs tr hex]
        exact throttled_run_aux net d rest fs tr p h
      · have habs : fsExists fs (pathJoin d (fileName s)) = false := by simpa using hex
        cases hsc : getSchedule net s.year s.type with
        | error e =>
            rw [runSeasons_miss_err net d s rest fs tr e habs hsc]
            rw [show [Ev.msg ("downloading " ++ fileName s), Ev.sleep 1,
                  Ev.fetch s.year s.type] =
                Ev.msg ("downloading " ++ fileName s) :: Ev.sleep 1 ::
                  Ev.fetch s.year s.type :: [] from rfl]
            rw [throttledFrom_block _ _ _ [] rfl tr p]
            exact h
        | ok j =>
            rw [runSeasons_miss_ok net d s rest fs tr j habs hsc]
            refine throttled_run_aux net d rest _ _ p ?_
            rw [show [Ev.msg ("downloading " ++ fileName s), Ev.sleep 1,
                  Ev.fetch s.year s.type, Ev.write (pathJoin d (fileName s))] =
                Ev.msg ("downloading " ++ fileName s) :: Ev.sleep 1 ::
                  Ev.fetch s.year s.type :: [Ev.write (pathJoin d (fileName s))] from rfl]
            rw [throttledFrom_block _ _ _ [Ev.write (pathJoin d (fileName s))] rfl tr p]
            exact h

theorem frame_run (net : Net) (d : String) : ∀ (seasons : List Season) (fs : Fs)
    (tr : List Ev),
    (∀ p v, fsLookup fs p = some v → fsLookup (runSeasons net d seasons fs tr).fs p = some v) ∧
    (∀ p, fsLookup fs p = none → fsLookup (runSeasons net d seasons fs tr).fs p ≠ none →
      ∃ s ∈ seasons, p = pathJoin d (fileName s))
  | [], fs, tr => by
      constructor
      · intro p v h
        exact h
      · intro p h hne
        exact absurd h hne
  | s :: rest, fs, tr => by
      by_cases hex : fsExists fs (pathJoin d (fileName s)) = true
      · rw [runSeasons_skip net d s rest fs tr hex]
        obtain ⟨ih1, ih2⟩ := frame_run net d rest fs tr
        refine ⟨ih1, fun p h hne => ?_⟩
        obtain ⟨s', hs', hp⟩ := ih2 p h hne
        exact ⟨s', List.mem_cons_of_mem s hs', hp⟩
      · have habs : fsExists fs (pathJoin d (fileName s)) = false := by simpa using hex
        have hnone : fsLookup fs (pathJoin d (fileName s)) = none := by
          simpa [fsExists, Option.isSome_iff_exists] using habs
        cases hsc : getSchedule net s.year s.type with
        | error e =>
            rw [runSeasons_miss_err net d s rest fs tr e habs hsc]
            constructor
            · intro p v h
              exact h
            · intro p h hne
              exact absurd h hne
        | ok j =>
            rw [runSeasons_miss_ok net d s rest fs tr j habs hsc]
            obtain ⟨ih1, ih2⟩ := frame_run net d rest
              (fsWrite fs (pathJoin d (fileName s)) (dumpJson j))
              (tr ++ [.msg ("downloading " ++ fileName s), .sleep 1, .fetch s.year s.type,
                .write (pathJoin d (fileName s))])
            constructor
            · intro p v h
              refine ih1 p v ?_
              rw [fsLookup_write]
              split
              · rename_i heq
                rw [← heq] at h
                rw [hnone] at h
                exact absurd h (by simp)
              · exact h
            · intro p h hne
              by_cases hpk : p = pathJoin d (fileName s)
              · exact ⟨s, List.mem_cons_self s rest, hpk⟩
              · have h' : fsLookup (fsWrite fs (pathJoin d (fileName s)) (dumpJson j)) p
                    = none := by
                  rw [fsLookup_write]
                  split
                  · rename_i heq
                    exact absurd heq.symm hpk
                  · exact h
                obtain ⟨s', hs', hp⟩ := ih2 p h' hne
                exact ⟨s', List.mem_cons_of_mem s hs', hp⟩

theorem toNat_dchar (n : Nat) (h : n < 10) : (dchar n).toNat = 48 + n := by
  interval_cases n <;> rfl

theorem isDigitC_dchar (n : Nat) (h : n < 10) : isDigitC (dchar n) = true := by
  simp only [isDigitC, toNat_dchar n h, Bool.and_eq_true, decide_eq_true_eq]
  omega

theorem natDigsF_ne_nil (fuel n : Nat) : natDigsF (fuel + 1) n ≠ [] := by
  rw [natDigsF]
  split
  · simp
  · simp

theorem natDigsF_digits : ∀ (fuel n : Nat) (c : Char), c ∈ natDigsF fuel n →
    isDigitC c = true
  | 0, n, c, h => absurd h (by simp [natDigsF])
  | fuel+1, n, c, h => by
      rw [natDigsF] at h
      split at h
      · rename_i hn
        rw [List.mem_singleton] at h
        subst h
        exact isDigitC_dchar n hn
      · rw [List.mem_append] at h
        cases h with
        | inl h => exact natDigsF_digits fuel (n / 10) c h
        | inr h =>
            rw [List.mem_singleton] at h
            subst h
            exact isDigitC_dchar (n % 10) (Nat.mod_lt n (by omega))

theorem readDigits_digsF : ∀ (fuel n a : Nat) (rest : List Char), n < 10 ^ fuel →
    readDigits a (natDigsF fuel n ++ rest) =
      readDigits (a * 10 ^ (natDigsF fuel n).length + n) rest
  | 0, n, a, rest, h => by
      have hn : n = 0 := by simpa using h
      subst hn
      simp [natDigsF]
  | fuel+1, n, a, rest, h => by
      rw [natDigsF]
      split
      · rename_i hn
        simp only [List.singleton_append, List.length_singleton, pow_one]
        rw [readDigits, if_pos (isDigitC_dchar n hn), toNat_dchar n hn]
        have : 10 * a + (48 + n - 48) = a * 10 + n := by omega
        rw [this]
      · rename_i hn
        push_neg at hn
        have hdiv : n / 10 < 10 ^ fuel := by
          rw [Nat.div_lt_iff_lt_mul (by omega : 0 < 10)]
          calc n < 10 ^ (fuel + 1) := h
            _ = 10 ^ fuel * 10 := by rw [pow_succ]
        rw [List.append_assoc, List.singleton_append,
          readDigits_digsF fuel (n / 10) a _ hdiv]
        rw [readDigits, if_pos (isDigitC_dchar (n % 10) (Nat.mod_lt n (by omega))),
          toNat_dchar (n % 10) (Nat.mod_lt n (by omega))]
        have hlen : (natDigsF fuel (n / 10) ++ [dchar (n % 10)]).length =
            (natDigsF fuel (n / 10)).length + 1 := by
          rw [List.length_append, List.length_singleton]
        rw [hlen, pow_succ, ← mul_assoc]
        have harith : 10 * (a * 10 ^ (natDigsF fuel (n / 10)).length + n / 10) +
            (48 + n % 10 - 48) = a * 10 ^ (natDigsF fuel (n / 10)).length * 10 + n := by
          generalize a * 10 ^ (natDigsF fuel (n / 10)).length = m
          omega
        rw [harith]

theorem readDigits_stop (x : Nat) (rest : List Char) (h : noDigitHead rest = true) :
    readDigits x rest = (x, rest) := by
  cases rest with
  | nil => rfl
  | cons c cs =>
      have hc : isDigitC c = false := by simpa [noDigitHead] using h
      rw [readDigits, if_neg (by simp [hc])]

theorem readDigits_natDigs (m : Nat) (rest : List Char) (h : noDigitHead rest = true) :
    readDigits 0 (natDigs m ++ rest) = (m, rest) := by
  have hlt : m < 10 ^ (m + 1) :=
    lt_of_lt_of_le (Nat.lt_pow_self (by omega) m)
      (Nat.pow_le_pow_right (by omega) (Nat.le_succ m))
  rw [natDigs, readDigits_digsF (m + 1) m 0 rest hlt, Nat.zero_mul, Nat.zero_add]
  exact readDigits_stop m rest h

theorem readStr_cons (c : Char) (cs : List Char) :
    readStr (c :: cs) =
      if c = qt then some ([], cs)
      else if c = bs then
        match cs with
        | [] => none
        | e :: cs' =>
          match readStr cs' with
          | none => none
          | some (s, r) => some (unesc e :: s, r)
      else
        match readStr cs with
        | none => none
        | some (s, r) => some (c :: s, r) := by
  rw [readStr.eq_def]

theorem readStr_escL : ∀ (l rest : List Char), readStr (escL l ++ qt :: rest) = some (l, rest)
  | [], rest => by
      rw [escL, List.nil_append, readStr_cons, if_pos rfl]
  | c :: l, rest => by
      by_cases hc : c = qt ∨ c = bs
      · have hu : unesc c = c := by
          rcases hc with h | h
          · subst h; decide
          · subst h; decide
        rw [escL, escChar, if_pos hc]
        simp only [List.cons_append, List.nil_append]
        rw [readStr_cons, if_neg (by decide : ¬(bs = qt)), if_pos rfl]
        simp only [readStr_escL l rest, hu]
      · push_neg at hc
        rw [escL, escChar, if_neg (not_or.mpr hc)]
        simp only [List.cons_append, List.nil_append]
        rw [readStr_cons, if_neg hc.1, if_neg hc.2]
        simp only [readStr_escL l rest]

theorem isDigitC_ne (c c' : Char) (h : isDigitC c = true) (h' : isDigitC c' = false) :
    ¬(c = c') := by
  intro hc
  rw [hc, h'] at h
  exact Bool.false_ne_true h

theorem exists_head_of_ne_nil {α : Type} : ∀ (l : List α), l ≠ [] → ∃ c cs, l = c :: cs
  | [], h => absurd rfl h
  | c :: cs, _ => ⟨c, cs, rfl⟩

theorem dumpVal_head (j : Json) : ∃ c cs, dumpVal j = c :: cs ∧ ¬(c = ']') := by
  cases j with
  | null => exact ⟨'n', ['u', 'l', 'l'], by rw [dumpVal], by decide⟩
  | bool b =>
      cases b with
      | true => exact ⟨'t', _, by rw [dumpVal], by decide⟩
      | false => exact ⟨'f', _, by rw [dumpVal], by decide⟩
  | num n =>
      by_cases hn : n < 0
      · refine ⟨Char.ofNat 45, natDigs n.natAbs, ?_, by decide⟩
        rw [dumpVal, if_pos hn, List.singleton_append]
      · obtain ⟨c, cs, hcs⟩ := exists_head_of_ne_nil _ (natDigsF_ne_nil n.natAbs n.natAbs)
        have hdig : isDigitC c = true := by
          refine natDigsF_digits (n.natAbs + 1) n.natAbs c ?_
          rw [hcs]
          exact List.mem_cons_self c cs
        refine ⟨c, cs, ?_, isDigitC_ne c _ hdig (by decide)⟩
        rw [dumpVal, if_neg hn, List.nil_append, natDigs, hcs]
  | str s => exact ⟨qt, escL s.data ++ [qt], by rw [dumpVal], by decide⟩
  | arr xs => exact ⟨'[', dumpItems xs ++ [']'], by rw [dumpVal], by decide⟩
  | obj ms => exact ⟨lbr, dumpMembers ms ++ [rbr], by rw [dumpVal], by decide⟩

theorem listCase_cons {A : Type} (c : Char) (cs : List Char) (nilR : Option A)
    (consR : Char → List Char → Option A) : listCase (c :: cs) nilR consR = consR c cs := rfl

theorem listCase_nil {A : Type} (nilR : Option A) (consR : Char → List Char → Option A) :
    listCase [] nilR consR = nilR := rfl

theorem parseVal_succ (fuel : Nat) (c : Char) (cs : List Char) :
    parseVal (fuel + 1) (c :: cs) =
      if c = Char.ofNat 110 then mkNull (expectL ['u', 'l', 'l'] cs)
      else if c = 't' then mkTrue (expectL ['r', 'u', 'e'] cs)
      else if c = 'f' then mkFalse (expectL ['a', 'l', 's', 'e'] cs)
      else if c = Char.ofNat 45 then
        listCase cs none (fun d ds =>
          if isDigitC d then
            some (.num (-((readDigits (d.toNat - 48) ds).1 : Int)),
              (readDigits (d.toNat - 48) ds).2)
          else none)
      else if isDigitC c then
        some (.num ((readDigits (c.toNat - 48) cs).1 : Int), (readDigits (c.toNat - 48) cs).2)
      else if c = qt then mkStr (readStr cs)
      else if c = '[' then
        listCase cs none (fun d ds =>
          if d = ']' then some (.arr .nil, ds)
          else mkArr (parseItems fuel (d :: ds)))
      else if c = lbr then
        listCase cs none (fun d ds =>
          if d = rbr then some (.obj .nil, ds)
          else mkObj (parseMembers fuel (d :: ds)))
      else none := by
  rw [parseVal, listCase_cons]

theorem parseItems_succ (fuel : Nat) (s : List Char) :
    parseItems (fuel + 1) s =
      (parseVal fuel s).bind (fun jr =>
        listCase jr.2 none (fun d r2 =>
          if d = ']' then some (.cons jr.1 .nil, r2)
          else if d = ',' then
            (parseItems fuel r2).map (fun tr => (.cons jr.1 tr.1, tr.2))
          else none)) := by
  rw [parseItems]

theorem parseMembers_succ (fuel : Nat) (c : Char) (cs : List Char) :
    parseMembers (fuel + 1) (c :: cs) =
      if c = qt then
        (readStr cs).bind (fun kr =>
          listCase kr.2 none (fun d r2 =>
            if d = ':' then
              (parseVal fuel r2).bind (fun vr =>
                listCase vr.2 none (fun d2 r4 =>
                  if d2 = rbr then some (.cons ⟨kr.1⟩ vr.1 .nil, r4)
                  else if d2 = ',' then
                    (parseMembers fuel r4).map (fun tr => (.cons ⟨kr.1⟩ vr.1 tr.1, tr.2))
                  else none))
            else none))
      else none := by
  rw [parseMembers, listCase_cons]

theorem expectL_append : ∀ (es r : List Char), expectL es (es ++ r) = some r
  | [], r => by rw [List.nil_append, expectL]
  | e :: es, r => by
      rw [List.cons_append, expectL, if_pos rfl]
      exact expectL_append es r

theorem needVal_pos (j : Json) : 1 ≤ needVal j := by
  cases j <;> rw [needVal] <;> omega

theorem dumpItems_head (h : Json) (t : JList) :
    ∃ c cs, dumpItems (.cons h t) = c :: cs ∧ ¬(c = ']') := by
  obtain ⟨c, cs, hD, hne⟩ := dumpVal_head h
  cases t with
  | nil => exact ⟨c, cs, by rw [dumpItems, hD], hne⟩
  | cons h2 t2 =>
      refine ⟨c, cs ++ ',' :: dumpItems (.cons h2 t2), ?_, hne⟩
      rw [dumpItems, hD, List.cons_append]

theorem dumpMembers_head (k : String) (v : Json) (t : JObj) :
    ∃ cs, dumpMembers (.cons k v t) = qt :: cs := by
  cases t with
  | nil => exact ⟨escL k.data ++ (qt :: (':' :: dumpVal v)), by rw [dumpMembers]⟩
  | cons k2 v2 t2 =>
      exact ⟨escL k.data ++ (qt :: (':' :: (dumpVal v ++ (',' :: dumpMembers (.cons k2 v2 t2))))),
        by rw [dumpMembers]⟩

mutual
theorem rtVal : ∀ (j : Json) (fuel : Nat) (rest : List Char),
    needVal j ≤ fuel → noDigitHead rest = true →
    parseVal fuel (dumpVal j ++ rest) = some (j, rest)
  | .null, fuel, rest, hneed, hrest => by
      obtain ⟨f, rfl⟩ : ∃ f, fuel = f + 1 :=
        ⟨fuel - 1, by have := needVal_pos Json.null; omega⟩
      rw [dumpVal, List.cons_append, parseVal_succ,
        if_pos (by decide : 'n' = Char.ofNat 110), expectL_append, mkNull]
  | .bool true, fuel, rest, hneed, hrest => by
      obtain ⟨f, rfl⟩ : ∃ f, fuel = f + 1 :=
        ⟨fuel - 1, by have := needVal_pos (Json.bool true); omega⟩
      rw [dumpVal, List.cons_append, parseVal_succ,
        if_neg (by decide : ¬('t' = Char.ofNat 110)), if_pos rfl, expectL_append, mkTrue]
  | .bool false, fuel, rest, hneed, hrest => by
      obtain ⟨f, rfl⟩ : ∃ f, fuel = f + 1 :=
        ⟨fuel - 1, by have := needVal_pos (Json.bool false); omega⟩
      rw [dumpVal, List.cons_append, parseVal_succ,
        if_neg (by decide : ¬('f' = Char.ofNat 110)), if_neg (by decide : ¬('f' = 't')),
        if_pos rfl, expectL_append, mkFalse]
  | .num n, fuel, rest, hneed, hrest => by
      obtain ⟨f, rfl⟩ : ∃ f, fuel = f + 1 :=
        ⟨fuel - 1, by have := needVal_pos (Json.num n); omega⟩
      obtain ⟨c, cs, hD⟩ := exists_head_of_ne_nil (natDigs n.natAbs)
        (by rw [natDigs]; exact natDigsF_ne_nil _ _)
      have hD' : natDigsF (n.natAbs + 1) n.natAbs = c :: cs := by rw [← natDigs]; exact hD
      have hdig : isDigitC c = true :=
        natDigsF_digits (n.natAbs + 1) n.natAbs c
          (by rw [hD']; exact List.mem_cons_self c cs)
      have hread : readDigits (c.toNat - 48) (cs ++ rest) = (n.natAbs, rest) := by
        have h0 := readDigits_natDigs n.natAbs rest hrest
        rw [hD, List.cons_append, readDigits, if_pos hdig] at h0
        simpa using h0
      by_cases hn : n < 0
      · rw [dumpVal, if_pos hn, List.singleton_append, List.cons_append, hD,
          List.cons_append, parseVal_succ,
          if_neg (by decide : ¬(Char.ofNat 45 = Char.ofNat 110)),
          if_neg (by decide : ¬(Char.ofNat 45 = 't')),
          if_neg (by decide : ¬(Char.ofNat 45 = 'f')), if_pos rfl]
        simp only [listCase_cons]
        rw [if_pos hdig, hread]
        have hm : -((n.natAbs : Int)) = n := by omega
        show some (Json.num (-((n.natAbs : Int))), rest) = some (Json.num n, rest)
        rw [hm]
      · rw [dumpVal, if_neg hn, List.nil_append, hD, List.cons_append, parseVal_succ,
          if_neg (isDigitC_ne c (Char.ofNat 110) hdig (by decide)),
          if_neg (isDigitC_ne c 't' hdig (by decide)),
          if_neg (isDigitC_ne c 'f' hdig (by decide)),
          if_neg (isDigitC_ne c (Char.ofNat 45) hdig (by decide)), if_pos hdig, hread]
        have hm : ((n.natAbs : Int)) = n := by omega
        show some (Json.num ((n.natAbs : Int)), rest) = some (Json.num n, rest)
        rw [hm]
  | .str s, fuel, rest, hneed, hrest => by
      obtain ⟨f, rfl⟩ : ∃ f, fuel = f + 1 :=
        ⟨fuel - 1, by have := needVal_pos (Json.str s); omega⟩
      rw [dumpVal, List.cons_append, List.append_assoc, List.singleton_append, parseVal_succ,
        if_neg (by decide : ¬(qt = Char.ofNat 110)), if_neg (by decide : ¬(qt = 't')),
        if_neg (by decide : ¬(qt = 'f')), if_neg (by decide : ¬(qt = Char.ofNat 45)),
        if_neg (by decide : ¬(isDigitC qt = true)), if_pos rfl, readStr_escL, mkStr]
  | .arr .nil, fuel, rest, hneed, hrest => by
      obtain ⟨f, rfl⟩ : ∃ f, fuel = f + 1 :=
        ⟨fuel - 1, by have := needVal_pos (Json.arr JList.nil); omega⟩
      rw [dumpVal, dumpItems, List.nil_append, List.cons_append, List.singleton_append,
        parseVal_succ,
        if_neg (by decide : ¬('[' = Char.ofNat 110)), if_neg (by decide : ¬('[' = 't')),
        if_neg (by decide : ¬('[' = 'f')), if_neg (by decide : ¬('[' = Char.ofNat 45)),
        if_neg (by decide : ¬(isDigitC '[' = true)), if_neg (by decide : ¬('[' = qt)),
        if_pos rfl]
      simp only [listCase_cons]
      rw [if_pos trivial]
  | .arr (.cons h t), fuel, rest, hneed, hrest => by
      obtain ⟨f, rfl⟩ : ∃ f, fuel = f + 1 :=
        ⟨fuel - 1, by have := needVal_pos (Json.arr (JList.cons h t)); omega⟩
      obtain ⟨c0, cs0, hDI, hne0⟩ := dumpItems_head h t
      rw [dumpVal, List.cons_append, List.append_assoc, List.singleton_append, hDI,
        List.cons_append, parseVal_succ,
        if_neg (by decide : ¬('[' = Char.ofNat 110)), if_neg (by decide : ¬('[' = 't')),
        if_neg (by decide : ¬('[' = 'f')), if_neg (by decide : ¬('[' = Char.ofNat 45)),
        if_neg (by decide : ¬(isDigitC '[' = true)), if_neg (by decide : ¬('[' = qt)),
        if_pos rfl]
      simp only [listCase_cons]
      rw [if_neg hne0,
        (by rw [hDI, List.cons_append] :
          c0 :: (cs0 ++ (']' :: rest)) = dumpItems (.cons h t) ++ (']' :: rest)),
        rtItems h t f rest (by rw [needVal] at hneed; omega), mkArr]
  | .obj .nil, fuel, rest, hneed, hrest => by
      obtain ⟨f, rfl⟩ : ∃ f, fuel = f + 1 :=
        ⟨fuel - 1, by have := needVal_pos (Json.obj JObj.nil); omega⟩
      rw [dumpVal, dumpMembers, List.nil_append, List.cons_append, List.singleton_append,
        parseVal_succ,
        if_neg (by decide : ¬(lbr = Char.ofNat 110)), if_neg (by decide : ¬(lbr = 't')),
        if_neg (by decide : ¬(lbr = 'f')), if_neg (by decide : ¬(lbr = Char.ofNat 45)),
        if_neg (by decide : ¬(isDigitC lbr = true)), if_neg (by decide : ¬(lbr = qt)),
        if_neg (by decide : ¬(lbr = '[')), if_pos rfl]
      simp only [listCase_cons]
      rw [if_pos trivial]
  | .obj (.cons k v t), fuel, rest, hneed, hrest => by
      obtain ⟨f, rfl⟩ : ∃ f, fuel = f + 1 :=
        ⟨fuel - 1, by have := needVal_pos (Json.obj (JObj.cons k v t)); omega⟩
      obtain ⟨cs0, hDM⟩ := dumpMembers_head k v t
      rw [dumpVal, List.cons_append, List.append_assoc, List.singleton_append, hDM,
        List.cons_append, parseVal_succ,
        if_neg (by decide : ¬(lbr = Char.ofNat 110)), if_neg (by decide : ¬(lbr = 't')),
        if_neg (by decide : ¬(lbr = 'f')), if_neg (by decide : ¬(lbr = Char.ofNat 45)),
        if_neg (by decide : ¬(isDigitC lbr = true)), if_neg (by decide : ¬(lbr = qt)),
        if_neg (by decide : ¬(lbr = '[')), if_pos rfl]
      simp only [listCase_cons]
      rw [if_neg (by decide : ¬(qt = rbr)),
        (by rw [hDM, List.cons_append] :
          qt :: (cs0 ++ (rbr :: rest)) = dumpMembers (.cons k v t) ++ (rbr :: rest)),
        rtMembers k v t f rest (by rw [needVal] at hneed; omega), mkObj]
termination_by j fuel r h1 h2 => sizeOf j
theorem rtItems : ∀ (h : Json) (t : JList) (fuel : Nat) (rest : List Char),
    needItems (.cons h t) ≤ fuel →
    parseItems fuel (dumpItems (.cons h t) ++ (']' :: rest)) = some (.cons h t, rest)
  | h, .nil, fuel, rest, hneed => by
      obtain ⟨f, rfl⟩ : ∃ f, fuel = f + 1 :=
        ⟨fuel - 1, by rw [needItems] at hneed; omega⟩
      rw [needItems, needItems] at hneed
      rw [dumpItems, parseItems_succ, rtVal h f (']' :: rest) (by omega) (by rfl)]
      simp only [Option.some_bind, listCase_cons]
      rw [if_pos trivial]
  | h, .cons h2 t2, fuel, rest, hneed => by
      obtain ⟨f, rfl⟩ : ∃ f, fuel = f + 1 :=
        ⟨fuel - 1, by rw [needItems] at hneed; omega⟩
      rw [needItems] at hneed
      rw [dumpItems, List.append_assoc, List.cons_append, parseItems_succ,
        rtVal h f (',' :: (dumpItems (.cons h2 t2) ++ (']' :: rest))) (by omega) (by rfl)]
      simp only [Option.some_bind, listCase_cons]
      rw [if_pos trivial, rtItems h2 t2 f rest (by omega)]
      simp only [Option.map_some']
      rw [if_neg (by decide : ¬(',' = ']'))]
termination_by h t fuel r h1 => sizeOf (JList.cons h t)
theorem rtMembers : ∀ (k : String) (v : Json) (t : JObj) (fuel : Nat) (rest : List Char),
    needMembers (.cons k v t) ≤ fuel →
    parseMembers fuel (dumpMembers (.cons k v t) ++ (rbr :: rest)) = some (.cons k v t, rest)
  | k, v, .nil, fuel, rest, hneed => by
      obtain ⟨f, rfl⟩ : ∃ f, fuel = f + 1 :=
        ⟨fuel - 1, by rw [needMembers] at hneed; omega⟩
      rw [needMembers, needMembers] at hneed
      rw [dumpMembers, List.cons_append, List.append_assoc, List.cons_append, List.cons_append,
        parseMembers_succ, if_pos rfl, readStr_escL]
      simp only [Option.some_bind, listCase_cons]
      rw [if_pos trivial, rtVal v f (rbr :: rest) (by omega) (by rfl)]
      simp only [Option.some_bind, listCase_cons]
      rw [if_pos trivial]
  | k, v, .cons k2 v2 t2, fuel, rest, hneed => by
      obtain ⟨f, rfl⟩ : ∃ f, fuel = f + 1 :=
        ⟨fuel - 1, by rw [needMembers] at hneed; omega⟩
      rw [needMembers] at hneed
      rw [dumpMembers, List.cons_append, List.append_assoc, List.cons_append, List.cons_append,
        List.append_assoc, List.cons_append, parseMembers_succ, if_pos rfl, readStr_escL]
      simp only [Option.some_bind, listCase_cons]
      rw [if_pos trivial,
        rtVal v f (',' :: (dumpMembers (.cons k2 v2 t2) ++ (rbr :: rest))) (by omega) (by rfl)]
      simp only [Option.some_bind, listCase_cons]
      rw [if_pos trivial, rtMembers k2 v2 t2 f rest (by omega)]
      simp only [Option.map_some']
      exact rfl
termination_by k v t fuel r h1 => sizeOf (JObj.cons k v t)
end

mutual
theorem needVal_le_len : ∀ (j : Json), needVal j ≤ (dumpVal j).length
  | .null => by rw [needVal, dumpVal]; simp
  | .bool b => by
      cases b <;> (rw [needVal, dumpVal]; simp)
  | .num n => by
      rw [needVal, dumpVal, List.length_append]
      have h1 : 0 < (natDigs n.natAbs).length := by
        rw [natDigs]
        exact List.length_pos.mpr (natDigsF_ne_nil _ _)
      omega
  | .str s => by
      rw [needVal, dumpVal]
      simp only [List.length_cons]
      omega
  | .arr xs => by
      rw [needVal, dumpVal]
      have ih := needItems_le_len xs
      simp only [List.length_cons, List.length_append, List.length_singleton]
      omega
  | .obj ms => by
      rw [needVal, dumpVal]
      have ih := needMembers_le_len ms
      simp only [List.length_cons, List.length_append, List.length_singleton]
      omega
theorem needItems_le_len : ∀ (t : JList), needItems t ≤ (dumpItems t).length + 1
  | .nil => by rw [needItems, dumpItems]; simp
  | .cons h .nil => by
      rw [needItems, needItems, dumpItems]
      have ih := needVal_le_len h
      omega
  | .cons h (.cons h2 t2) => by
      rw [needItems, dumpItems]
      have ih1 := needVal_le_len h
      have ih2 := needItems_le_len (.cons h2 t2)
      simp only [List.length_append, List.length_cons]
      omega
theorem needMembers_le_len : ∀ (t : JObj), needMembers t ≤ (dumpMembers t).length + 1
  | .nil => by rw [needMembers, dumpMembers]; simp
  | .cons k v .nil => by
      rw [needMembers, needMembers, dumpMembers]
      have ih := needVal_le_len v
      simp only [List.length_cons, List.length_append]
      omega
  | .cons k v (.cons k2 v2 t2) => by
      rw [needMembers, dumpMembers]
      have ih1 := needVal_le_len v
      have ih2 := needMembers_le_len (.cons k2 v2 t2)
      simp only [List.length_cons, List.length_append]
      omega
end

theorem parseJson_dumpJson (j : Json) : parseJson (dumpJson j) = some j := by
  have hfuel : needVal j ≤ (dumpVal j).length + 1 :=
    le_trans (needVal_le_len j) (Nat.le_succ _)
  have h := rtVal j ((dumpVal j).length + 1) [] hfuel (by rfl)
  rw [List.append_nil] at h
  show (match parseVal ((dumpVal j).length + 1) (dumpVal j) with
    | some (j, []) => some j
    | _ => none) = some j
  rw [h]

/-- Claim C1: running the sync loop against a cache directory that already contains a
file for every descriptor's cache key performs zero network fetch calls: the run leaves
the filesystem untouched, emits no events at all (in particular no fetch events), and
finishes without error — every descriptor takes the skip branch. -/
theorem spec_idempotent_second_run (net : Net) (d : String) (seasons : List Season) (fs : Fs)
    (h : ∀ s ∈ seasons, fsExists fs (pathJoin d (fileName s)) = true) :
    runSeasons net d seasons fs [] = ⟨fs, [], none⟩ ∧
      numFetches (runSeasons net d seasons fs []).trace = 0 := by
  have h1 := runSeasons_all_cached net d seasons fs [] h
  refine ⟨h1, ?_⟩
  rw [h1]
  rfl

theorem spec_idempotent_second_run_witness :
    (∀ s ∈ [(⟨2021, "REG"⟩ : Season)],
      fsExists [(pathJoin ("D:/nbaBlog/schedules") ("schedREG2021.json"), ("null" : String))]
        (pathJoin ("D:/nbaBlog/schedules") (fileName s)) = true) ∧
    runSeasons (fun _ _ => .ok ("null")) ("D:/nbaBlog/schedules") [⟨2021, "REG"⟩]
        [(pathJoin ("D:/nbaBlog/schedules") ("schedREG2021.json"), ("null" : String))] [] =
      ⟨[(pathJoin ("D:/nbaBlog/schedules") ("schedREG2021.json"), ("null" : String))], [],
        none⟩ :=
  ⟨by decide, (spec_idempotent_second_run _ _ _ _ (by decide)).1⟩

/-- Claim C2: the cache key is computed deterministically as the string "sched"
concatenated with the type code, the decimal rendering of the year, and ".json"; in
particular the descriptor with year 2021 and type "REG" always yields exactly
"schedREG2021.json". -/
theorem spec_cache_key_deterministic :
    fileName ⟨2021, "REG"⟩ = "schedREG2021.json" ∧
      ∀ (y : Int) (t : String), fileName ⟨y, t⟩ = "sched" ++ t ++ intStr y ++ ".json" :=
  ⟨by decide, fun y t => rfl⟩

/-- Claim C3: a descriptor whose computed cache-key file already exists under the cache
directory at check time contributes nothing to the run: no network call, no write, no
event, and no filesystem change — processing the remaining descriptors is all that
happens. -/
theorem spec_skip_on_presence (net : Net) (d : String) (s : Season) (rest : List Season)
    (fs : Fs) (tr : List Ev) (h : fsExists fs (pathJoin d (fileName s)) = true) :
    runSeasons net d (s :: rest) fs tr = runSeasons net d rest fs tr := by
  simp [runSeasons, h]

theorem spec_skip_on_presence_witness :
    fsExists [(pathJoin ("cache") ("schedREG2021.json"), ("null" : String))]
      (pathJoin ("cache") (fileName (⟨2021, "REG"⟩ : Season))) = true ∧
    runSeasons (fun _ _ => .error .timeout) ("cache") [⟨2021, "REG"⟩]
        [(pathJoin ("cache") ("schedREG2021.json"), ("null" : String))] [] =
      runSeasons (fun _ _ => .error .timeout) ("cache") []
        [(pathJoin ("cache") ("schedREG2021.json"), ("null" : String))] [] :=
  ⟨by decide, spec_skip_on_presence _ _ _ _ _ _ (by decide)⟩

/-- Claim C4: with an empty cache and the single descriptor with year 2022 and type
"PST", the loop makes exactly one network call, parameterized by year 2022 and type
"PST", and writes the parsed-then-serialized response body to "schedPST2022.json" under
the cache directory. -/
theorem spec_fetch_on_absence (net : Net) (d : String) (body : String) (j : Json)
    (hnet : net 2022 ("PST") = .ok body) (hparse : parseJson body = some j) :
    runSeasons net d [⟨2022, "PST"⟩] [] [] =
      ⟨[(pathJoin d ("schedPST2022.json"), dumpJson j)],
        [.msg ("downloading schedPST2022.json"), .sleep 1, .fetch 2022 ("PST"),
          .write (pathJoin d ("schedPST2022.json"))], none⟩ := by
  have hget : getSchedule net 2022 ("PST") = .ok j := by
    rw [getSchedule, hnet, jsonOrErr, hparse, decodeBody]
  have hfn : fileName ⟨2022, "PST"⟩ = "schedPST2022.json" := by decide
  have h1 := runSeasons_miss_ok net d ⟨2022, "PST"⟩ [] [] [] j rfl hget
  rw [h1, runSeasons_nil, hfn]
  have hmsg : "downloading " ++ "schedPST2022.json" = "downloading schedPST2022.json" := by
    decide
  rw [hmsg]
  rfl

theorem spec_fetch_on_absence_witness :
    (fun (_ : Int) (_ : String) => (Except.ok ("null") : Except NetErr String)) 2022 ("PST") =
      .ok ("null") ∧
    parseJson ("null") = some .null ∧
    runSeasons (fun _ _ => .ok ("null")) ("cache") [⟨2022, "PST"⟩] [] [] =
      ⟨[(pathJoin ("cache") ("schedPST2022.json"), dumpJson .null)],
        [.msg ("downloading schedPST2022.json"), .sleep 1, .fetch 2022 ("PST"),
          .write (pathJoin ("cache") ("schedPST2022.json"))], none⟩ :=
  ⟨rfl, rfl, spec_fetch_on_absence _ _ ("null") .null rfl rfl⟩

/-- Claim C5: if, after the earlier descriptors have been processed without error, the
fetch for the next descriptor fails, then the run aborts with that error immediately:
the trace gains only the progress notice, the sleep and the failed fetch attempt — so no
fetch is attempted for any later descriptor — and the filesystem stays exactly as the
earlier descriptors left it, so every cache entry written earlier in the run persists. -/
theorem spec_fail_fast (net : Net) (d : String) (pre post : List Season) (s : Season)
    (fs fs₁ : Fs) (tr tr₁ : List Ev) (e : FetchErr)
    (hpre : runSeasons net d pre fs tr = ⟨fs₁, tr₁, none⟩)
    (habs : fsExists fs₁ (pathJoin d (fileName s)) = false)
    (herr : getSchedule net s.year s.type = .error e) :
    runSeasons net d (pre ++ s :: post) fs tr =
      ⟨fs₁, tr₁ ++ [.msg ("downloading " ++ fileName s), .sleep 1, .fetch s.year s.type],
        some e⟩ := by
  rw [runSeasons_append net d pre (s :: post) fs tr fs₁ tr₁ hpre]
  exact runSeasons_miss_err net d s post fs₁ tr₁ e habs herr

theorem spec_fail_fast_witness :
    runSeasons
        (fun y _ => if y = 2020 then (Except.ok ("null") : Except NetErr String)
          else .error .timeout)
        ("cache") ([⟨2020, "REG"⟩] ++ (⟨2021, "REG"⟩ : Season) :: [⟨2022, "REG"⟩]) [] [] =
      ⟨[(pathJoin ("cache") ("schedREG2020.json"), dumpJson .null)],
        [Ev.msg ("downloading schedREG2020.json"), Ev.sleep 1, Ev.fetch 2020 ("REG"),
          Ev.write (pathJoin ("cache") ("schedREG2020.json"))] ++
          [Ev.msg ("downloading schedREG2021.json"), Ev.sleep 1, Ev.fetch 2021 ("REG")],
        some (.net .timeout)⟩ :=
  spec_fail_fast
    (fun y _ => if y = 2020 then (Except.ok ("null") : Except NetErr String)
      else .error .timeout)
    ("cache") [⟨2020, "REG"⟩] [⟨2022, "REG"⟩] ⟨2021, "REG"⟩ []
    [(pathJoin ("cache") ("schedREG2020.json"), dumpJson .null)] []
    [Ev.msg ("downloading schedREG2020.json"), Ev.sleep 1, Ev.fetch 2020 ("REG"),
      Ev.write (pathJoin ("cache") ("schedREG2020.json"))]
    (.net .timeout) (by rfl) (by decide) (by rfl)

/-- Claim C6: the serializer and parser modelling the cache write and read-back are a
lossless pair: re-parsing the serialized text of any structured value yields exactly the
original value (parse after dump is the identity on fetched structures). -/
theorem spec_serialize_roundtrip (j : Json) : parseJson (dumpJson j) = some j :=
  parseJson_dumpJson j

/-- Claim C7: within a single run, at most one network fetch is performed for any given
descriptor, even if the descriptor occurs several times in the input sequence: after the
first fetch writes the cache entry, later occurrences take the existence-check skip
branch. -/
theorem spec_at_most_one_fetch (net : Net) (d : String) (seasons : List Season) (fs : Fs)
    (y : Int) (t : String) :
    countFetch y t (runSeasons net d seasons fs []).trace ≤ 1 := by
  have h := countFetch_run_le net d y t seasons fs []
  simpa [countFetch] using h

/-- Claim C8: every fetch event in a run's trace is immediately preceded by the fixed
one-unit sleep event; no fetch of a resource ever occurs without this preceding delay. -/
theorem spec_sleep_before_fetch (net : Net) (d : String) (seasons : List Season) (fs : Fs) :
    throttled (runSeasons net d seasons fs []).trace = true :=
  throttled_run_aux net d seasons fs [] none rfl

/-- Claim C9: if the fetched response body fails to parse as structured data, no cache
file is created for that descriptor: the run aborts with a deserialization error, the
filesystem is returned unchanged, and the trace contains no write event for it. -/
theorem spec_parse_failure_no_write (net : Net) (d : String) (s : Season)
    (rest : List Season) (fs : Fs) (tr : List Ev) (body : String)
    (habs : fsExists fs (pathJoin d (fileName s)) = false)
    (hnet : net s.year s.type = .ok body)
    (hbad : parseJson body = none) :
    runSeasons net d (s :: rest) fs tr =
      ⟨fs, tr ++ [.msg ("downloading " ++ fileName s), .sleep 1, .fetch s.year s.type],
        some .badJson⟩ := by
  have herr : getSchedule net s.year s.type = .error .badJson := by
    rw [getSchedule, hnet, jsonOrErr, hbad, decodeBody]
  exact runSeasons_miss_err net d s rest fs tr .badJson habs herr

theorem spec_parse_failure_no_write_witness :
    parseJson ("x") = none ∧
    runSeasons (fun _ _ => .ok ("x")) ("cache") [⟨2021, "REG"⟩] [] [] =
      ⟨[], [Ev.msg ("downloading schedREG2021.json"), Ev.sleep 1, Ev.fetch 2021 ("REG")],
        some .badJson⟩ :=
  ⟨rfl, spec_parse_failure_no_write _ _ _ _ _ _ ("x") (by rfl) (by rfl) (by rfl)⟩

/-- Claim C10: the run's only filesystem mutation is the creation of new files at
computed cache paths: every mapping present before the run is still present, unchanged,
afterwards (nothing is modified or deleted), and any path that is new after the run
equals the cache directory joined with some input descriptor's computed cache key. -/
theorem spec_frame_only_cache_writes (net : Net) (d : String) (seasons : List Season)
    (fs : Fs) (tr : List Ev) :
    (∀ p v, fsLookup fs p = some v → fsLookup (runSeasons net d seasons fs tr).fs p = some v) ∧
    (∀ p, fsLookup fs p = none → fsLookup (runSeasons net d seasons fs tr).fs p ≠ none →
      ∃ s ∈ seasons, p = pathJoin d (fileName s)) :=
  frame_run net d seasons fs tr

theorem spec_frame_only_cache_writes_witness :
    fsLookup (runSeasons (fun _ _ => .ok ("null")) ("cache") [⟨2022, "PST"⟩]
        [(("cache/old.json" : String), ("z" : String))] []).fs ("cache/old.json") =
      some ("z") :=
  (spec_frame_only_cache_writes (fun _ _ => .ok ("null")) ("cache") [⟨2022, "PST"⟩]
    [(("cache/old.json" : String), ("z" : String))] []).1 ("cache/old.json") ("z") rfl

end NbaSync
